import Mathlib

/-!
Verification of the propmap combined-score core: colour-gradient
interpolation (`_scoreColor`), haversine distance (`_haversine`),
nearest-station search (`_nearestStation`), polygon centroid
(`_centroid`) and the per-region score aggregation (`computeScore`),
shallowly embedded from the JavaScript sources.  JavaScript numbers are
modelled as exact rationals wherever the source performs only field
arithmetic and comparisons, and as real numbers where it uses
trigonometric functions.
-/

namespace Propmap

/-- Clamp a rational to the unit interval, as `Math.max(0, Math.min(1, x))`. -/
def clamp01 (x : ℚ) : ℚ := max 0 (min 1 x)

/-- A gradient stop `{ t, r, g, b }` from `COLOR_STOPS` in combined-score:
position `t` and integer colour channels. -/
structure ColorStop where
  t : ℚ
  r : ℤ
  g : ℤ
  b : ℤ
deriving DecidableEq

/-- The fixed green-to-red gradient table `COLOR_STOPS` of the combined-score layer. -/
def COLOR_STOPS : List ColorStop :=
  [⟨0, 44, 160, 44⟩, ⟨0.25, 143, 188, 50⟩, ⟨0.5, 240, 165, 0⟩,
   ⟨0.75, 220, 90, 30⟩, ⟨1, 180, 30, 30⟩]

/-- JavaScript `Math.round`: round half toward positive infinity. -/
def jsRound (x : ℚ) : ℤ := ⌊x + 1 / 2⌋

/-- `_lerp(a, b, t) = Math.round(a + (b - a) * t)`. -/
def _lerp (a b : ℤ) (t : ℚ) : ℤ := jsRound ((a : ℚ) + ((b : ℚ) - (a : ℚ)) * t)

/-- The bracket-search loop of `_scoreColor`: walk adjacent pairs of stops and
return the first pair `(lo, hi)` with `lo.t ≤ s ≤ hi.t`, if any. -/
def bracketLoop (s : ℚ) : List ColorStop → Option (ColorStop × ColorStop)
  | lo :: hi :: rest =>
      if lo.t ≤ s ∧ s ≤ hi.t then some (lo, hi) else bracketLoop s (hi :: rest)
  | _ => none

/-- The divisor `hi.t - lo.t || 1` of `_scoreColor`: a zero span is replaced by 1. -/
def _span (lo hi : ColorStop) : ℚ := if hi.t - lo.t = 0 then 1 else hi.t - lo.t

/-- `_scoreColor(score)` of combined-score, generalised over the stop list the
source reads from the module constant `COLOR_STOPS`.  `none` models the
TypeError the source raises on an empty stop list (indexing `stops[0]`
yields `undefined`); otherwise the clamped score is bracketed (defaulting to
the first/last stop) and each channel linearly interpolated. -/
def _scoreColor (stops : List ColorStop) (score : ℚ) : Option (ℤ × ℤ × ℤ) :=
  match stops with
  | [] => none
  | first :: rest =>
      let s := clamp01 score
      let lh := (bracketLoop s (first :: rest)).getD (first, (first :: rest).getLastD first)
      let t := (s - lh.1.t) / _span lh.1 lh.2
      some (_lerp lh.1.r lh.2.r t, _lerp lh.1.g lh.2.g t, _lerp lh.1.b lh.2.b t)

lemma clamp01_nonneg (x : ℚ) : 0 ≤ clamp01 x := le_max_left 0 _

lemma clamp01_le_one (x : ℚ) : clamp01 x ≤ 1 := by
  unfold clamp01
  rcases le_total 0 (min 1 x) with h | h
  · rw [max_eq_right h]; exact min_le_left 1 x
  · rw [max_eq_left h]; norm_num

lemma clamp01_of_mem {x : ℚ} (h0 : 0 ≤ x) (h1 : x ≤ 1) : clamp01 x = x := by
  unfold clamp01
  rw [min_eq_right h1, max_eq_right h0]

lemma scoreColor_congr (stops : List ColorStop) {a b : ℚ}
    (h : clamp01 a = clamp01 b) : _scoreColor stops a = _scoreColor stops b := by
  cases stops with
  | nil => rfl
  | cons first rest => simp only [_scoreColor, h]

lemma bracketLoop_sound {s : ℚ} :
    ∀ (l : List ColorStop) (lo hi : ColorStop),
      bracketLoop s l = some (lo, hi) →
      lo ∈ l ∧ hi ∈ l ∧ lo.t ≤ s ∧ s ≤ hi.t := by
  intro l
  induction l with
  | nil => intro lo hi h; simp [bracketLoop] at h
  | cons a tail ih =>
    intro lo hi h
    cases tail with
    | nil => simp [bracketLoop] at h
    | cons b rest =>
      by_cases hc : a.t ≤ s ∧ s ≤ b.t
      · rw [bracketLoop, if_pos hc] at h
        obtain ⟨rfl, rfl⟩ := Prod.mk.injEq .. ▸ Option.some.injEq _ _ ▸ h
        exact ⟨List.mem_cons_self _ _, List.mem_cons_of_mem _ (List.mem_cons_self _ _),
          hc.1, hc.2⟩
      · rw [bracketLoop, if_neg hc] at h
        obtain ⟨h1, h2, h3, h4⟩ := ih lo hi h
        exact ⟨List.mem_cons_of_mem _ h1, List.mem_cons_of_mem _ h2, h3, h4⟩

lemma bracketLoop_found {s : ℚ} :
    ∀ (l : List ColorStop) (a : ColorStop),
      a.t ≤ s → s ≤ (l.getLastD a).t → l ≠ [] →
      ∃ lo hi, bracketLoop s (a :: l) = some (lo, hi) := by
  intro l
  induction l with
  | nil => intro a _ _ hne; exact absurd rfl hne
  | cons b rest ih =>
    intro a ha hlast _
    by_cases hc : a.t ≤ s ∧ s ≤ b.t
    · exact ⟨a, b, by rw [bracketLoop, if_pos hc]⟩
    · have hbs : b.t ≤ s := by
        rcases not_and_or.mp hc with h | h
        · exact absurd ha h
        · exact le_of_lt (lt_of_not_le h)
      cases rest with
      | nil =>
        exfalso
        exact hc ⟨ha, by simpa [List.getLastD] using hlast⟩
      | cons c rest2 =>
        have hlast2 : s ≤ ((c :: rest2).getLastD b).t := by
          simpa [List.getLastD_cons] using hlast
        obtain ⟨lo, hi, hbr⟩ := ih b hbs hlast2 (List.cons_ne_nil _ _)
        refine ⟨lo, hi, ?_⟩
        rw [bracketLoop, if_neg hc]
        exact hbr

lemma span_ne_zero (lo hi : ColorStop) : _span lo hi ≠ 0 := by
  unfold _span
  by_cases h : hi.t - lo.t = 0
  · rw [if_pos h]; norm_num
  · rw [if_neg h]; exact h

lemma lerpParam_mem {lo hi : ColorStop} {s : ℚ} (h1 : lo.t ≤ s) (h2 : s ≤ hi.t) :
    0 ≤ (s - lo.t) / _span lo hi ∧ (s - lo.t) / _span lo hi ≤ 1 := by
  unfold _span
  by_cases h : hi.t - lo.t = 0
  · rw [if_pos h]
    have hs : s = lo.t := le_antisymm (by linarith) h1
    constructor <;> simp [hs]
  · rw [if_neg h]
    have hpos : 0 < hi.t - lo.t := lt_of_le_of_ne (by linarith) (Ne.symm h)
    constructor
    · exact div_nonneg (by linarith) (le_of_lt hpos)
    · rw [div_le_one hpos]; linarith

lemma lerp_between {a b : ℤ} {t : ℚ} (h0 : 0 ≤ t) (h1 : t ≤ 1) :
    min a b ≤ _lerp a b t ∧ _lerp a b t ≤ max a b := by
  unfold _lerp jsRound
  have hx : ((min a b : ℤ) : ℚ) ≤ (a : ℚ) + ((b : ℚ) - a) * t ∧
      (a : ℚ) + ((b : ℚ) - a) * t ≤ ((max a b : ℤ) : ℚ) := by
    rcases le_total a b with hab | hab
    · rw [min_eq_left hab, max_eq_right hab]
      have hab' : (a : ℚ) ≤ (b : ℚ) := Int.cast_le.mpr hab
      constructor <;> nlinarith
    · rw [min_eq_right hab, max_eq_left hab]
      have hab' : (b : ℚ) ≤ (a : ℚ) := Int.cast_le.mpr hab
      constructor <;> nlinarith
  constructor
  · have := Int.floor_le_floor (α := ℚ)
      (add_le_add_right hx.1 (1 / 2))
    rwa [Int.floor_int_add, show ⌊(1 : ℚ) / 2⌋ = 0 by norm_num, add_zero] at this
  · have := Int.floor_le_floor (α := ℚ)
      (add_le_add_right hx.2 (1 / 2))
    rwa [Int.floor_int_add, show ⌊(1 : ℚ) / 2⌋ = 0 by norm_num, add_zero] at this

lemma scoreColor_of_bracket {first : ColorStop} {rest : List ColorStop} {score : ℚ}
    {lo hi : ColorStop}
    (hbr : bracketLoop (clamp01 score) (first :: rest) = some (lo, hi)) :
    _scoreColor (first :: rest) score =
      some (_lerp lo.r hi.r ((clamp01 score - lo.t) / _span lo hi),
            _lerp lo.g hi.g ((clamp01 score - lo.t) / _span lo hi),
            _lerp lo.b hi.b ((clamp01 score - lo.t) / _span lo hi)) := by
  simp only [_scoreColor, hbr, Option.getD_some]

lemma jsRound_intCast (n : ℤ) : jsRound (n : ℚ) = n := by
  unfold jsRound
  rw [Int.floor_int_add, show ⌊(1 : ℚ) / 2⌋ = 0 by norm_num, add_zero]

lemma lerp_self (a : ℤ) (t : ℚ) : _lerp a a t = a := by
  unfold _lerp
  simp only [sub_self, zero_mul, add_zero]
  exact jsRound_intCast a

lemma scoreColor_singleton (c : ColorStop) (score : ℚ) :
    _scoreColor [c] score = some (c.r, c.g, c.b) := by
  have h1 : bracketLoop (clamp01 score) [c] = none := rfl
  have h2 : [c].getLastD c = c := rfl
  have h3 : _span c c = 1 := by simp [_span]
  simp only [_scoreColor, h1, h2, Option.getD_none, h3, lerp_self]

/-- Master lemma for a stop list whose first position is 0 and last position 1:
the bracket search always succeeds on the clamped score, the selected pair
brackets it, and `_scoreColor` interpolates inside that bracket with an
interpolation parameter in the unit interval. -/
lemma scoreColor_master (first : ColorStop) (rest : List ColorStop) (score : ℚ)
    (hne : rest ≠ []) (hfirst : first.t = 0) (hlast : (rest.getLastD first).t = 1) :
    ∃ lo hi, bracketLoop (clamp01 score) (first :: rest) = some (lo, hi) ∧
      lo ∈ first :: rest ∧ hi ∈ first :: rest ∧
      lo.t ≤ clamp01 score ∧ clamp01 score ≤ hi.t ∧
      0 ≤ (clamp01 score - lo.t) / _span lo hi ∧
      (clamp01 score - lo.t) / _span lo hi ≤ 1 ∧
      _scoreColor (first :: rest) score =
        some (_lerp lo.r hi.r ((clamp01 score - lo.t) / _span lo hi),
              _lerp lo.g hi.g ((clamp01 score - lo.t) / _span lo hi),
              _lerp lo.b hi.b ((clamp01 score - lo.t) / _span lo hi)) := by
  have ha : first.t ≤ clamp01 score := by rw [hfirst]; exact clamp01_nonneg score
  have hb : clamp01 score ≤ (rest.getLastD first).t := by
    rw [hlast]; exact clamp01_le_one score
  obtain ⟨lo, hi, hbr⟩ := bracketLoop_found rest first ha hb hne
  obtain ⟨hlo, hhi, h1, h2⟩ := bracketLoop_sound (first :: rest) lo hi hbr
  obtain ⟨hp0, hp1⟩ := lerpParam_mem h1 h2
  exact ⟨lo, hi, hbr, hlo, hhi, h1, h2, hp0, hp1, scoreColor_of_bracket hbr⟩

/-- Claim C7: `_scoreColor` clamps its scalar argument to the unit interval:
for every stop list, every score below 0 yields the colour at 0 and every
score above 1 yields the colour at 1. -/
theorem scoreColor_clamps (stops : List ColorStop) (tq : ℚ) :
    (tq < 0 → _scoreColor stops tq = _scoreColor stops 0) ∧
    (1 < tq → _scoreColor stops tq = _scoreColor stops 1) := by
  constructor
  · intro h
    apply scoreColor_congr
    unfold clamp01
    rw [min_eq_right (by linarith : tq ≤ 1), max_eq_left (by linarith : tq ≤ 0)]
    norm_num
  · intro h
    apply scoreColor_congr
    unfold clamp01
    rw [min_eq_left (by linarith : (1 : ℚ) ≤ tq), min_self]

/-- Witness for C7 at the source's gradient table and the spec's sample
arguments -5 and 5. -/
theorem scoreColor_clamps_witness :
    ((-5 : ℚ) < 0 ∧ _scoreColor COLOR_STOPS (-5) = _scoreColor COLOR_STOPS 0) ∧
    ((1 : ℚ) < 5 ∧ _scoreColor COLOR_STOPS 5 = _scoreColor COLOR_STOPS 1) :=
  ⟨⟨by norm_num, (scoreColor_clamps COLOR_STOPS (-5)).1 (by norm_num)⟩,
   ⟨by norm_num, (scoreColor_clamps COLOR_STOPS 5).2 (by norm_num)⟩⟩

/-- Claim C8: for a valid stop list (at least two stops, positions sorted
ascending, first position 0, last position 1) and a score in the unit
interval, `_scoreColor` selects a bracketing pair of stops around the score
and each output channel lies between the corresponding channel values of the
two bracketing stops. -/
theorem scoreColor_no_overshoot (first : ColorStop) (rest : List ColorStop) (tq : ℚ)
    (hne : rest ≠ [])
    (hsorted : List.Chain' (fun x y : ColorStop => x.t ≤ y.t) (first :: rest))
    (hfirst : first.t = 0) (hlast : (rest.getLastD first).t = 1)
    (h0 : 0 ≤ tq) (h1 : tq ≤ 1) :
    ∃ lo hi, bracketLoop tq (first :: rest) = some (lo, hi) ∧
      lo ∈ first :: rest ∧ hi ∈ first :: rest ∧ lo.t ≤ tq ∧ tq ≤ hi.t ∧
      ∃ r g b, _scoreColor (first :: rest) tq = some (r, g, b) ∧
        min lo.r hi.r ≤ r ∧ r ≤ max lo.r hi.r ∧
        min lo.g hi.g ≤ g ∧ g ≤ max lo.g hi.g ∧
        min lo.b hi.b ≤ b ∧ b ≤ max lo.b hi.b := by
  obtain ⟨lo, hi, hbr, hlo, hhi, hl1, hl2, hp0, hp1, hval⟩ :=
    scoreColor_master first rest tq hne hfirst hlast
  rw [clamp01_of_mem h0 h1] at hbr hl1 hl2 hp0 hp1 hval
  refine ⟨lo, hi, hbr, hlo, hhi, hl1, hl2, _, _, _, hval, ?_, ?_, ?_, ?_, ?_, ?_⟩
  · exact (lerp_between hp0 hp1).1
  · exact (lerp_between hp0 hp1).2
  · exact (lerp_between hp0 hp1).1
  · exact (lerp_between hp0 hp1).2
  · exact (lerp_between hp0 hp1).1
  · exact (lerp_between hp0 hp1).2

/-- Witness for C8 at the source's gradient table and score 0.6: the bracket
is the pair at positions 0.5 and 0.75. -/
theorem scoreColor_no_overshoot_witness :
    ∃ lo hi,
      bracketLoop 0.6 (ColorStop.mk 0 44 160 44 ::
        [⟨0.25, 143, 188, 50⟩, ⟨0.5, 240, 165, 0⟩, ⟨0.75, 220, 90, 30⟩,
         ⟨1, 180, 30, 30⟩]) = some (lo, hi) ∧
      lo ∈ ColorStop.mk 0 44 160 44 ::
        [⟨0.25, 143, 188, 50⟩, ⟨0.5, 240, 165, 0⟩, ⟨0.75, 220, 90, 30⟩,
         ⟨1, 180, 30, 30⟩] ∧
      hi ∈ ColorStop.mk 0 44 160 44 ::
        [⟨0.25, 143, 188, 50⟩, ⟨0.5, 240, 165, 0⟩, ⟨0.75, 220, 90, 30⟩,
         ⟨1, 180, 30, 30⟩] ∧
      lo.t ≤ 0.6 ∧ (0.6 : ℚ) ≤ hi.t ∧
      ∃ r g b,
        _scoreColor (ColorStop.mk 0 44 160 44 ::
          [⟨0.25, 143, 188, 50⟩, ⟨0.5, 240, 165, 0⟩, ⟨0.75, 220, 90, 30⟩,
           ⟨1, 180, 30, 30⟩]) 0.6 = some (r, g, b) ∧
        min lo.r hi.r ≤ r ∧ r ≤ max lo.r hi.r ∧
        min lo.g hi.g ≤ g ∧ g ≤ max lo.g hi.g ∧
        min lo.b hi.b ≤ b ∧ b ≤ max lo.b hi.b :=
  scoreColor_no_overshoot ⟨0, 44, 160, 44⟩
    [⟨0.25, 143, 188, 50⟩, ⟨0.5, 240, 165, 0⟩, ⟨0.75, 220, 90, 30⟩, ⟨1, 180, 30, 30⟩]
    0.6 (by simp)
    (by norm_num [List.chain'_cons, List.chain'_singleton])
    rfl (by norm_num [List.getLastD]) (by norm_num) (by norm_num)

/-- Claim C10: the colour interpolation is total and range-safe: for a stop
list with first position 0, last position 1 and channels within 0..255
(duplicate adjacent positions allowed — the internal span divisor is never
zero), every rational score yields a colour with all channels in 0..255. -/
theorem scoreColor_total_in_range (first : ColorStop) (rest : List ColorStop) (score : ℚ)
    (hne : rest ≠ []) (hfirst : first.t = 0) (hlast : (rest.getLastD first).t = 1)
    (hch : ∀ c ∈ first :: rest,
      0 ≤ c.r ∧ c.r ≤ 255 ∧ 0 ≤ c.g ∧ c.g ≤ 255 ∧ 0 ≤ c.b ∧ c.b ≤ 255) :
    (∀ lo hi : ColorStop, _span lo hi ≠ 0) ∧
    ∃ r g b, _scoreColor (first :: rest) score = some (r, g, b) ∧
      0 ≤ r ∧ r ≤ 255 ∧ 0 ≤ g ∧ g ≤ 255 ∧ 0 ≤ b ∧ b ≤ 255 := by
  refine ⟨span_ne_zero, ?_⟩
  obtain ⟨lo, hi, _, hlo, hhi, _, _, hp0, hp1, hval⟩ :=
    scoreColor_master first rest score hne hfirst hlast
  obtain ⟨hr1, hr2, hg1, hg2, hb1, hb2⟩ := hch lo hlo
  obtain ⟨hr1', hr2', hg1', hg2', hb1', hb2'⟩ := hch hi hhi
  refine ⟨_, _, _, hval, ?_, ?_, ?_, ?_, ?_, ?_⟩
  · exact le_trans (le_min hr1 hr1') (lerp_between hp0 hp1).1
  · exact le_trans (lerp_between hp0 hp1).2 (max_le hr2 hr2')
  · exact le_trans (le_min hg1 hg1') (lerp_between hp0 hp1).1
  · exact le_trans (lerp_between hp0 hp1).2 (max_le hg2 hg2')
  · exact le_trans (le_min hb1 hb1') (lerp_between hp0 hp1).1
  · exact le_trans (lerp_between hp0 hp1).2 (max_le hb2 hb2')

/-- Witness for C10 at the source's gradient table with a score far outside
the unit interval. -/
theorem scoreColor_total_in_range_witness :
    (∀ lo hi : ColorStop, _span lo hi ≠ 0) ∧
    ∃ r g b,
      _scoreColor (ColorStop.mk 0 44 160 44 ::
        [⟨0.25, 143, 188, 50⟩, ⟨0.5, 240, 165, 0⟩, ⟨0.75, 220, 90, 30⟩,
         ⟨1, 180, 30, 30⟩]) 7 = some (r, g, b) ∧
      0 ≤ r ∧ r ≤ 255 ∧ 0 ≤ g ∧ g ≤ 255 ∧ 0 ≤ b ∧ b ≤ 255 :=
  scoreColor_total_in_range ⟨0, 44, 160, 44⟩
    [⟨0.25, 143, 188, 50⟩, ⟨0.5, 240, 165, 0⟩, ⟨0.75, 220, 90, 30⟩, ⟨1, 180, 30, 30⟩]
    7 (by simp) rfl (by norm_num [List.getLastD])
    (by
      intro c hc
      simp only [List.mem_cons, List.not_mem_nil, or_false] at hc
      rcases hc with rfl | rfl | rfl | rfl | rfl <;> norm_num)

/-- Claim C6 (amended): the source's colour interpolation performs no
validation at all and defines no InvalidGradientError: it fails (a TypeError
from indexing an empty array) exactly when the stop list is empty, and for a
single-stop list — fewer than the two entries the claim says must be rejected
— it simply returns that stop's colour. -/
theorem scoreColor_no_validation (stops : List ColorStop) (score : ℚ) :
    (_scoreColor stops score = none ↔ stops = []) ∧
    (∀ c : ColorStop, _scoreColor [c] score = some (c.r, c.g, c.b)) := by
  constructor
  · constructor
    · intro h
      cases stops with
      | nil => rfl
      | cons first rest => simp [_scoreColor] at h
    · intro h; rw [h]; rfl
  · intro c
    exact scoreColor_singleton c score

/-- Counterexample to C6 as stated: a single-stop list (fewer than 2 entries)
does not fail — `_scoreColor` returns the stop's colour. -/
theorem interpolate_invalid_counterexample :
    _scoreColor [⟨0, 10, 20, 30⟩] (1 / 2) = some (10, 20, 30) ∧
    ([⟨0, 10, 20, 30⟩] : List ColorStop).length < 2 :=
  ⟨scoreColor_singleton ⟨0, 10, 20, 30⟩ (1 / 2), by norm_num⟩

/-- Witness for C6's amended theorem at a concrete stop. -/
theorem scoreColor_no_validation_witness :
    _scoreColor [⟨0.5, 7, 8, 9⟩] 2 = some (7, 8, 9) :=
  (scoreColor_no_validation [] 2).2 ⟨0.5, 7, 8, 9⟩

/-- A monitoring station record `{ lat, lng, maxAQI, name }` as exported by
the air-quality layer for the combined score. -/
structure Station where
  lat : ℚ
  lng : ℚ
  maxAQI : Option ℚ
  name : String
deriving DecidableEq

/-- The loop of `_nearestStation`: `best` starts as `null` with
`bestDist = Infinity` (modelled by the accumulator being `none`), and each
candidate strictly closer than the current best replaces it.  The
accumulator keeps both the station and its distance, as the source does.
The distance values live in an arbitrary linear order so that the search is
stated for any distance function, including the real-valued `_haversine`
the source passes in. -/
def nearLoop {α : Type} [LinearOrder α] (dist : Station → α) :
    List (String × Station) → Option (Station × α) → Option (Station × α)
  | [], acc => acc
  | p :: rest, acc =>
      nearLoop dist rest
        (match acc with
         | none => some (p.2, dist p.2)
         | some q => if dist p.2 < q.2 then some (p.2, dist p.2) else some q)

/-- `_nearestStation(lat, lng, stations)`: iterate the station mapping (in
iteration order, modelled as an association list) and return the first
strictly-closest station, or `null` when the mapping is empty. -/
def _nearestStation {α : Type} [LinearOrder α] (dist : Station → α)
    (stations : List (String × Station)) : Option Station :=
  (nearLoop dist stations none).map (·.1)

lemma nearLoop_some {α : Type} [LinearOrder α] (dist : Station → α) :
    ∀ (l : List (String × Station)) (q : Station × α),
      ∃ q2, nearLoop dist l (some q) = some q2 := by
  intro l
  induction l with
  | nil => intro q; exact ⟨q, rfl⟩
  | cons p rest ih =>
    intro q
    rw [nearLoop]
    by_cases h : dist p.2 < q.2
    · rw [if_pos h]; exact ih _
    · rw [if_neg h]; exact ih q

/-- Characterisation of the nearest-station loop: either no candidate beats
the incoming accumulator (which is returned unchanged), or the returned
winner is a candidate that is strictly closer than every candidate before it
in iteration order, strictly closer than the incoming best distance, and at
least as close as every candidate after it. -/
lemma nearLoop_spec {α : Type} [LinearOrder α] (dist : Station → α) :
    ∀ (l : List (String × Station)) (acc : Option (Station × α)),
      (∀ q : Station × α, acc = some q → q.2 = dist q.1) →
      (nearLoop dist l acc = acc ∧
        ∀ p ∈ l, ∀ q : Station × α, acc = some q → q.2 ≤ dist p.2) ∨
      (∃ pre c st post, l = pre ++ (c, st) :: post ∧
        nearLoop dist l acc = some (st, dist st) ∧
        (∀ q : Station × α, acc = some q → dist st < q.2) ∧
        (∀ p ∈ pre, dist st < dist p.2) ∧
        (∀ p ∈ post, dist st ≤ dist p.2)) := by
  intro l
  induction l with
  | nil =>
    intro acc _
    exact Or.inl ⟨rfl, by simp⟩
  | cons p rest ih =>
    intro acc hinv
    obtain ⟨c0, s0⟩ := p
    cases acc with
    | none =>
      have hstep : nearLoop dist ((c0, s0) :: rest) none =
          nearLoop dist rest (some (s0, dist s0)) := rfl
      have hinv2 : ∀ q : Station × α, some (s0, dist s0) = some q → q.2 = dist q.1 := by
        intro q hq
        obtain rfl := (Option.some.injEq _ _ ▸ hq : (s0, dist s0) = q).symm
        rfl
      rcases ih (some (s0, dist s0)) hinv2 with ⟨heq, hmin⟩ | hwin
      · refine Or.inr ⟨[], c0, s0, rest, rfl, ?_, by simp, by simp, ?_⟩
        · rw [hstep, heq]
        · intro x hx
          exact hmin x hx (s0, dist s0) rfl
      · obtain ⟨pre, c, st, post, hl, hres, haccq, hpre, hpost⟩ := hwin
        refine Or.inr ⟨(c0, s0) :: pre, c, st, post, by simp [hl], ?_, by simp, ?_, hpost⟩
        · rw [hstep, hres]
        · intro x hx
          rcases List.mem_cons.mp hx with rfl | hx2
          · exact haccq (s0, dist s0) rfl
          · exact hpre x hx2
    | some q =>
      have hq : q.2 = dist q.1 := hinv q rfl
      by_cases hlt : dist s0 < q.2
      · have hstep : nearLoop dist ((c0, s0) :: rest) (some q) =
            nearLoop dist rest (some (s0, dist s0)) := by
          rw [nearLoop, if_pos hlt]
        have hinv2 : ∀ q2 : Station × α, some (s0, dist s0) = some q2 → q2.2 = dist q2.1 := by
          intro q2 hq2
          obtain rfl := (Option.some.injEq _ _ ▸ hq2 : (s0, dist s0) = q2).symm
          rfl
        rcases ih (some (s0, dist s0)) hinv2 with ⟨heq, hmin⟩ | hwin
        · refine Or.inr ⟨[], c0, s0, rest, rfl, ?_, ?_, by simp, ?_⟩
          · rw [hstep, heq]
          · intro q2 hq2
            obtain rfl := (Option.some.injEq _ _ ▸ hq2 : q = q2).symm
            exact hlt
          · intro x hx
            exact hmin x hx (s0, dist s0) rfl
        · obtain ⟨pre, c, st, post, hl, hres, haccq, hpre, hpost⟩ := hwin
          have hsts0 : dist st < dist s0 := haccq (s0, dist s0) rfl
          refine Or.inr ⟨(c0, s0) :: pre, c, st, post, by simp [hl], ?_, ?_, ?_, hpost⟩
          · rw [hstep, hres]
          · intro q2 hq2
            obtain rfl := (Option.some.injEq _ _ ▸ hq2 : q = q2).symm
            exact lt_trans hsts0 hlt
          · intro x hx
            rcases List.mem_cons.mp hx with rfl | hx2
            · exact hsts0
            · exact hpre x hx2
      · have hstep : nearLoop dist ((c0, s0) :: rest) (some q) =
            nearLoop dist rest (some q) := by
          rw [nearLoop, if_neg hlt]
        have hle : q.2 ≤ dist s0 := not_lt.mp hlt
        rcases ih (some q) hinv with ⟨heq, hmin⟩ | hwin
        · refine Or.inl ⟨by rw [hstep, heq], ?_⟩
          intro x hx q2 hq2
          obtain rfl := (Option.some.injEq _ _ ▸ hq2 : q = q2)
          rcases List.mem_cons.mp hx with rfl | hx2
          · exact hle
          · exact hmin x hx2 q rfl
        · obtain ⟨pre, c, st, post, hl, hres, haccq, hpre, hpost⟩ := hwin
          have hstq : dist st < q.2 := haccq q rfl
          refine Or.inr ⟨(c0, s0) :: pre, c, st, post, by simp [hl], ?_, ?_, ?_, hpost⟩
          · rw [hstep, hres]
          · intro q2 hq2
            obtain rfl := (Option.some.injEq _ _ ▸ hq2 : q = q2).symm
            exact hstq
          · intro x hx
            rcases List.mem_cons.mp hx with rfl | hx2
            · exact lt_of_lt_of_le hstq hle
            · exact hpre x hx2

/-- Claim C4: `_nearestStation` returns `null` exactly when the candidate
mapping is empty; otherwise it returns a candidate whose distance is at most
that of every candidate, and it is the first minimal-distance candidate in
iteration order (every earlier candidate is strictly farther).  Stated for an
arbitrary linearly-ordered distance function, which the source instantiates
with the haversine distance to the query point. -/
theorem nearestStation_spec {α : Type} [LinearOrder α] (dist : Station → α)
    (l : List (String × Station)) :
    (_nearestStation dist l = none ↔ l = []) ∧
    ∀ st, _nearestStation dist l = some st →
      (∃ pre c post, l = pre ++ (c, st) :: post ∧
        ∀ p ∈ pre, dist st < dist p.2) ∧
      (∀ p ∈ l, dist st ≤ dist p.2) := by
  have hvac : ∀ q : Station × α, (none : Option (Station × α)) = some q → q.2 = dist q.1 := by
    intro q hq; cases hq
  constructor
  · constructor
    · intro h
      cases l with
      | nil => rfl
      | cons p rest =>
        exfalso
        obtain ⟨c0, s0⟩ := p
        have hstep : nearLoop dist ((c0, s0) :: rest) none =
            nearLoop dist rest (some (s0, dist s0)) := rfl
        obtain ⟨q2, hq2⟩ := nearLoop_some dist rest (s0, dist s0)
        unfold _nearestStation at h
        rw [hstep, hq2] at h
        simp at h
    · intro h; rw [h]; rfl
  · intro st hst
    rcases nearLoop_spec dist l none hvac with ⟨heq, _⟩ | hwin
    · exfalso
      unfold _nearestStation at hst
      rw [heq] at hst
      simp at hst
    · obtain ⟨pre, c, st2, post, hl, hres, _, hpre, hpost⟩ := hwin
      have hst2 : st = st2 := by
        unfold _nearestStation at hst
        rw [hres] at hst
        simpa using hst.symm
      subst hst2
      refine ⟨⟨pre, c, post, hl, hpre⟩, ?_⟩
      intro x hx
      rw [hl] at hx
      rcases List.mem_append.mp hx with hx1 | hx2
      · exact le_of_lt (hpre x hx1)
      · rcases List.mem_cons.mp hx2 with rfl | hx3
        · exact le_refl _
        · exact hpost x hx3

/-- Witness for C4: among three stations at latitudes 3, 1, 1 (with the
query distance taken as the latitude), the winner is the first of the two
tied minimal candidates in iteration order. -/
theorem nearestStation_spec_witness :
    (∃ pre c post,
        ([("a", Station.mk 3 0 none "A"), ("b", Station.mk 1 0 none "B"),
          ("c", Station.mk 1 0 none "C")] : List (String × Station)) =
          pre ++ (c, Station.mk 1 0 none "B") :: post ∧
        ∀ p ∈ pre, (Station.mk 1 0 none "B").lat < p.2.lat) ∧
    (∀ p ∈ ([("a", Station.mk 3 0 none "A"), ("b", Station.mk 1 0 none "B"),
          ("c", Station.mk 1 0 none "C")] : List (String × Station)),
        (Station.mk 1 0 none "B").lat ≤ p.2.lat) :=
  (nearestStation_spec (fun st => st.lat)
      [("a", Station.mk 3 0 none "A"), ("b", Station.mk 1 0 none "B"),
       ("c", Station.mk 1 0 none "C")]).2
    (Station.mk 1 0 none "B") (by decide)

/-- A GeoJSON geometry as consumed by `_centroid`.  A vertex is a
`[lng, lat]` pair, modelled as `(lng, lat)`.  Per the spec's data model a
polygon has one outer ring followed by hole rings (the source reads
`coordinates[0]` and ignores the rest); a multi-polygon is a list of such
polygons; any other `geometry.type` falls through both branches of the
source's type dispatch and is `unsupported`. -/
inductive Geometry where
  | polygon (outer : List (ℚ × ℚ)) (holes : List (List (ℚ × ℚ)))
  | multiPolygon (polys : List (List (ℚ × ℚ) × List (List (ℚ × ℚ))))
  | unsupported

/-- The running sums `sumLat`, `sumLng` and vertex `count` of `_centroid`. -/
structure CentroidAcc where
  sumLat : ℚ
  sumLng : ℚ
  count : ℕ

/-- `processRing` of `_centroid`: accumulate every `[lng, lat]` vertex of a ring. -/
def processRing (acc : CentroidAcc) (ring : List (ℚ × ℚ)) : CentroidAcc :=
  ring.foldl (fun a v => ⟨a.sumLat + v.2, a.sumLng + v.1, a.count + 1⟩) acc

/-- `_centroid(geometry)`: average all outer-ring vertices; `null` (here
`none`) when no vertex was counted.  The result is `[lat, lng]`. -/
def _centroid (g : Geometry) : Option (ℚ × ℚ) :=
  let acc : CentroidAcc :=
    match g with
    | .polygon outer _ => processRing ⟨0, 0, 0⟩ outer
    | .multiPolygon polys => polys.foldl (fun a p => processRing a p.1) ⟨0, 0, 0⟩
    | .unsupported => ⟨0, 0, 0⟩
  if acc.count = 0 then none else some (acc.sumLat / acc.count, acc.sumLng / acc.count)

/-- The outer-ring vertices of a geometry, in processing order. -/
def outerVertices : Geometry → List (ℚ × ℚ)
  | .polygon outer _ => outer
  | .multiPolygon polys => (polys.map (fun p => p.1)).flatten
  | .unsupported => []

lemma processRing_eq (ring : List (ℚ × ℚ)) :
    ∀ acc : CentroidAcc,
      processRing acc ring =
        ⟨acc.sumLat + (ring.map (fun v => v.2)).sum,
         acc.sumLng + (ring.map (fun v => v.1)).sum,
         acc.count + ring.length⟩ := by
  induction ring with
  | nil => intro acc; simp [processRing]
  | cons v tail ih =>
    intro acc
    have hstep : processRing acc (v :: tail) =
        processRing ⟨acc.sumLat + v.2, acc.sumLng + v.1, acc.count + 1⟩ tail := rfl
    rw [hstep, ih]
    simp [List.length_cons]
    constructor
    · ring
    · constructor
      · ring
      · omega

lemma centroidAcc_multi (polys : List (List (ℚ × ℚ) × List (List (ℚ × ℚ)))) :
    ∀ acc : CentroidAcc,
      polys.foldl (fun a p => processRing a p.1) acc =
        ⟨acc.sumLat + (((polys.map (fun p => p.1)).flatten).map (fun v => v.2)).sum,
         acc.sumLng + (((polys.map (fun p => p.1)).flatten).map (fun v => v.1)).sum,
         acc.count + ((polys.map (fun p => p.1)).flatten).length⟩ := by
  induction polys with
  | nil => intro acc; simp
  | cons p tail ih =>
    intro acc
    rw [List.foldl_cons, ih, processRing_eq]
    simp
    constructor
    · ring
    · constructor
      · ring
      · omega

lemma centroid_acc (g : Geometry) :
    _centroid g =
      if (outerVertices g).length = 0 then none
      else some (((outerVertices g).map (fun v => v.2)).sum / ((outerVertices g).length : ℚ),
                 ((outerVertices g).map (fun v => v.1)).sum / ((outerVertices g).length : ℚ)) := by
  cases g with
  | polygon outer holes =>
    simp only [_centroid, outerVertices, processRing_eq outer ⟨0, 0, 0⟩]
    norm_num
  | multiPolygon polys =>
    simp only [_centroid, outerVertices, centroidAcc_multi polys ⟨0, 0, 0⟩]
    norm_num
  | unsupported =>
    simp [_centroid, outerVertices]

/-- Claim C5: `_centroid` returns the arithmetic mean of the outer-ring
vertices of each constituent polygon (holes ignored), returns `null` exactly
when there are zero such vertices (in particular for unsupported shapes),
and maps the square (0,0),(0,2),(2,2),(2,0) to (1,1). -/
theorem centroid_spec (g : Geometry) :
    (_centroid g = none ↔ outerVertices g = []) ∧
    (∀ p : ℚ × ℚ, _centroid g = some p →
      p.1 = ((outerVertices g).map (fun v => v.2)).sum / ((outerVertices g).length : ℚ) ∧
      p.2 = ((outerVertices g).map (fun v => v.1)).sum / ((outerVertices g).length : ℚ)) ∧
    _centroid (.polygon [(0, 0), (0, 2), (2, 2), (2, 0)] []) = some (1, 1) := by
  refine ⟨?_, ?_, ?_⟩
  · rw [centroid_acc g]
    by_cases h : (outerVertices g).length = 0
    · simp [h, List.length_eq_zero.mp h]
    · simp [h]
      intro hc
      exact h (by rw [hc]; rfl)
  · intro p hp
    rw [centroid_acc g] at hp
    by_cases h : (outerVertices g).length = 0
    · rw [if_pos h] at hp; cases hp
    · rw [if_neg h] at hp
      obtain rfl := (Option.some.injEq _ _ ▸ hp :
        (((outerVertices g).map (fun v => v.2)).sum / ((outerVertices g).length : ℚ),
         ((outerVertices g).map (fun v => v.1)).sum / ((outerVertices g).length : ℚ)) = p)
      exact ⟨rfl, rfl⟩
  · rw [centroid_acc]
    norm_num [outerVertices]

/-- Witness for C5: the square from the spec's test list, pushed through the
claim theorem. -/
theorem centroid_spec_witness :
    _centroid (.polygon [(0, 0), (0, 2), (2, 2), (2, 0)] []) = some (1, 1) ∧
    ((1 : ℚ), (1 : ℚ)).1 =
      ((outerVertices (.polygon [(0, 0), (0, 2), (2, 2), (2, 0)] [])).map
        (fun v => v.2)).sum /
      ((outerVertices (.polygon [(0, 0), (0, 2), (2, 2), (2, 0)] [])).length : ℚ) :=
  ⟨(centroid_spec Geometry.unsupported).2.2,
   ((centroid_spec (.polygon [(0, 0), (0, 2), (2, 2), (2, 0)] [])).2.1 (1, 1)
     (centroid_spec Geometry.unsupported).2.2).1⟩

/-- JavaScript `Math.atan2(y, x)` on non-exceptional real inputs, by the
standard case analysis on the sign of `x`. -/
noncomputable def atan2 (y x : ℝ) : ℝ :=
  if 0 < x then Real.arctan (y / x)
  else if x < 0 then
    (if 0 ≤ y then Real.arctan (y / x) + Real.pi else Real.arctan (y / x) - Real.pi)
  else (if 0 < y then Real.pi / 2 else if y < 0 then -(Real.pi / 2) else 0)

/-- The intermediate `a` of `_haversine`:
`sin(dLat/2)^2 + cos(lat1·π/180)·cos(lat2·π/180)·sin(dLng/2)^2`. -/
noncomputable def havTerm (lat1 lng1 lat2 lng2 : ℝ) : ℝ :=
  Real.sin ((lat2 - lat1) * Real.pi / 180 / 2) ^ 2 +
    Real.cos (lat1 * Real.pi / 180) * Real.cos (lat2 * Real.pi / 180) *
      Real.sin ((lng2 - lng1) * Real.pi / 180 / 2) ^ 2

/-- `_haversine(lat1, lng1, lat2, lng2)` with Earth radius `R = 6371` km:
`R * 2 * atan2(sqrt(a), sqrt(1 - a))`. -/
noncomputable def _haversine (lat1 lng1 lat2 lng2 : ℝ) : ℝ :=
  6371 * 2 * atan2 (Real.sqrt (havTerm lat1 lng1 lat2 lng2))
    (Real.sqrt (1 - havTerm lat1 lng1 lat2 lng2))

lemma havTerm_symm (lat1 lng1 lat2 lng2 : ℝ) :
    havTerm lat1 lng1 lat2 lng2 = havTerm lat2 lng2 lat1 lng1 := by
  have key : ∀ u v : ℝ,
      Real.sin ((u - v) * Real.pi / 180 / 2) ^ 2 =
      Real.sin ((v - u) * Real.pi / 180 / 2) ^ 2 := by
    intro u v
    rw [show (u - v) * Real.pi / 180 / 2 = -((v - u) * Real.pi / 180 / 2) by ring,
      Real.sin_neg]
    ring
  unfold havTerm
  rw [key lat2 lat1, key lng2 lng1]
  ring

lemma havTerm_self (lat lng : ℝ) : havTerm lat lng lat lng = 0 := by
  unfold havTerm
  simp [sub_self]

/-- Claim C9: `_haversine` (great-circle distance, Earth radius 6371 km) is
symmetric in its two points and zero on coincident points — here exactly, so
in particular within any floating-point tolerance. -/
theorem haversine_symm_zero :
    (∀ lat1 lng1 lat2 lng2 : ℝ,
      _haversine lat1 lng1 lat2 lng2 = _haversine lat2 lng2 lat1 lng1) ∧
    (∀ lat lng : ℝ, _haversine lat lng lat lng = 0) := by
  constructor
  · intro lat1 lng1 lat2 lng2
    unfold _haversine
    rw [havTerm_symm]
  · intro lat lng
    unfold _haversine
    rw [havTerm_self]
    have h1 : Real.sqrt 0 = 0 := Real.sqrt_zero
    have h2 : Real.sqrt (1 - 0) = 1 := by rw [sub_zero, Real.sqrt_one]
    rw [h1, h2]
    unfold atan2
    rw [if_pos (by norm_num : (0 : ℝ) < 1)]
    norm_num [Real.arctan_zero]

/-- A region record as consumed by the combined-score builder: the IMD
decile (a JS number or null) and the `[lat, lng]` centroid (or null). -/
structure Lsoa where
  imd_decile : Option ℚ
  centroid : Option (ℚ × ℚ)
deriving DecidableEq

/-- The per-region result of the combined-score computation: the weighted
score, its three components and the matched station. -/
structure ScoreBreakdown where
  score : ℚ
  depComp : ℚ
  aqComp : ℚ
  noiseComp : ℚ
  nearestSt : Option Station
deriving DecidableEq

/-- The per-region score computation of the combined-score layer's
`_buildLayer`: deprivation component `(11 - decile)/10` (0.5 when the decile
is null), air-quality component `min(maxAQI/10, 1)` of the nearest station
when stations exist, the centroid is defined, and the matched station has a
maxAQI (0.5 otherwise), constant noise component 0.5, and the weighted sum
`0.4·dep + 0.4·aq + 0.2·noise`.  The distance function the source passes to
`_nearestStation` (haversine from the centroid) is a parameter. -/
def computeScore {α : Type} [LinearOrder α] (dist : ℚ × ℚ → Station → α)
    (lsoa : Lsoa) (stations : List (String × Station)) : ScoreBreakdown :=
  let depComp : ℚ :=
    match lsoa.imd_decile with
    | some d => (11 - d) / 10
    | none => 0.5
  let aqPair : ℚ × Option Station :=
    if 0 < stations.length then
      match lsoa.centroid with
      | some c =>
        match _nearestStation (dist c) stations with
        | some st =>
          (match st.maxAQI with
           | some m => min (m / 10) 1
           | none => 0.5, some st)
        | none => (0.5, none)
      | none => (0.5, none)
    else (0.5, none)
  let noiseComp : ℚ := 0.5
  { score := 0.4 * depComp + 0.4 * aqPair.1 + 0.2 * noiseComp
    depComp := depComp
    aqComp := aqPair.1
    noiseComp := noiseComp
    nearestSt := aqPair.2 }

/-- Claim C3: the component formulas — deprivation `(11 − decile)/10` or 0.5,
air quality `min(maxIndex/10, 1)` when a station with a defined index is
matched and 0.5 otherwise, constant noise 0.5 — and the spec's sample:
decile 1 with a matched station of maxIndex 10 gives components 1, 1, 0.5
and combined score 0.90. -/
theorem computeScore_components {α : Type} [LinearOrder α]
    (dist : ℚ × ℚ → Station → α) (lsoa : Lsoa) (stations : List (String × Station)) :
    (∀ d, lsoa.imd_decile = some d →
      (computeScore dist lsoa stations).depComp = (11 - d) / 10) ∧
    (lsoa.imd_decile = none → (computeScore dist lsoa stations).depComp = 0.5) ∧
    ((computeScore dist lsoa stations).noiseComp = 0.5) ∧
    (∀ c st m, lsoa.centroid = some c →
      _nearestStation (dist c) stations = some st → st.maxAQI = some m →
      (computeScore dist lsoa stations).aqComp = min (m / 10) 1) ∧
    ((lsoa.centroid = none ∨ stations = [] ∨
        (∃ c st, lsoa.centroid = some c ∧
          _nearestStation (dist c) stations = some st ∧ st.maxAQI = none)) →
      (computeScore dist lsoa stations).aqComp = 0.5) ∧
    ((computeScore (fun _ _ => (0 : ℚ)) ⟨some 1, some (0, 0)⟩
        [("x", ⟨0, 0, some 10, "x"⟩)]).depComp = 1 ∧
      (computeScore (fun _ _ => (0 : ℚ)) ⟨some 1, some (0, 0)⟩
        [("x", ⟨0, 0, some 10, "x"⟩)]).aqComp = 1 ∧
      (computeScore (fun _ _ => (0 : ℚ)) ⟨some 1, some (0, 0)⟩
        [("x", ⟨0, 0, some 10, "x"⟩)]).noiseComp = 0.5 ∧
      (computeScore (fun _ _ => (0 : ℚ)) ⟨some 1, some (0, 0)⟩
        [("x", ⟨0, 0, some 10, "x"⟩)]).score = 0.9) := by
  refine ⟨?_, ?_, rfl, ?_, ?_, ?_⟩
  · intro d hd
    simp [computeScore, hd]
  · intro hd
    simp [computeScore, hd]
  · intro c st m hc hst hm
    have hne : stations ≠ [] := by
      intro he
      rw [he] at hst
      exact Option.noConfusion hst
    have hpos : 0 < stations.length := List.length_pos.mpr hne
    simp [computeScore, hc, hst, hm, hpos]
  · intro h
    rcases h with hc | hs | ⟨c, st, hc, hst, hm⟩
    · simp [computeScore, hc]
    · simp [computeScore, hs]
    · have hne : stations ≠ [] := by
        intro he
        rw [he] at hst
        exact Option.noConfusion hst
      have hpos : 0 < stations.length := List.length_pos.mpr hne
      simp [computeScore, hc, hst, hm, hpos]
  · refine ⟨?_, ?_, rfl, ?_⟩
    · norm_num [computeScore]
    · have hst : _nearestStation ((fun _ _ => (0 : ℚ)) ((0 : ℚ), (0 : ℚ)))
          [("x", Station.mk 0 0 (some 10) "x")] = some (Station.mk 0 0 (some 10) "x") := by
        decide
      norm_num [computeScore, hst]
    · have hst : _nearestStation ((fun _ _ => (0 : ℚ)) ((0 : ℚ), (0 : ℚ)))
          [("x", Station.mk 0 0 (some 10) "x")] = some (Station.mk 0 0 (some 10) "x") := by
        decide
      norm_num [computeScore, hst]

/-- Witness for C3 at a concrete region and station list (decile 2 so the
deprivation formula is exercised away from the neutral value). -/
theorem computeScore_components_witness :
    (computeScore (fun _ _ => (0 : ℚ)) ⟨some 2, none⟩ []).depComp = (11 - 2) / 10 :=
  (computeScore_components (fun _ _ => (0 : ℚ)) ⟨some 2, none⟩ []).1 2 rfl

/-- Claim C2: `computeScore` is total (it is a function into `ScoreBreakdown`)
and degrades missing data to neutral defaults: with no stations or no
centroid the air-quality component is 0.5 and no station is matched, and
with the decile also absent the combined score is exactly 0.5. -/
theorem computeScore_neutral_defaults {α : Type} [LinearOrder α]
    (dist : ℚ × ℚ → Station → α) (lsoa : Lsoa) (stations : List (String × Station)) :
    ((stations = [] ∨ lsoa.centroid = none) →
      (computeScore dist lsoa stations).aqComp = 0.5 ∧
      (computeScore dist lsoa stations).nearestSt = none) ∧
    (lsoa.imd_decile = none → stations = [] →
      (computeScore dist lsoa stations).score = 0.5) := by
  constructor
  · intro h
    rcases h with hs | hc
    · constructor <;> simp [computeScore, hs]
    · constructor <;> simp [computeScore, hc]
  · intro hd hs
    norm_num [computeScore, hd, hs]

/-- Witness for C2 with every input absent. -/
theorem computeScore_neutral_defaults_witness :
    ((computeScore (fun _ _ => (0 : ℚ)) ⟨none, none⟩ []).aqComp = 0.5 ∧
      (computeScore (fun _ _ => (0 : ℚ)) ⟨none, none⟩ []).nearestSt = none) ∧
    (computeScore (fun _ _ => (0 : ℚ)) ⟨none, none⟩ []).score = 0.5 :=
  ⟨(computeScore_neutral_defaults (fun _ _ => (0 : ℚ)) ⟨none, none⟩ []).1 (Or.inl rfl),
   (computeScore_neutral_defaults (fun _ _ => (0 : ℚ)) ⟨none, none⟩ []).2 rfl rfl⟩

/-- Counterexample to C1 as stated: the source applies no clamp to the
components.  With an out-of-range decile of 100 the deprivation component is
−8.9, the combined score is −3.26 — not the claimed weighted sum of clamped
components (which would be 0.3) and not in the unit interval. -/
theorem combinedScore_clamped_counterexample :
    ¬ ((computeScore (fun _ _ => (0 : ℚ)) ⟨some 100, none⟩ []).score =
        0.4 * clamp01 ((computeScore (fun _ _ => (0 : ℚ)) ⟨some 100, none⟩ []).depComp) +
        0.4 * clamp01 ((computeScore (fun _ _ => (0 : ℚ)) ⟨some 100, none⟩ []).aqComp) +
        0.2 * clamp01 ((computeScore (fun _ _ => (0 : ℚ)) ⟨some 100, none⟩ []).noiseComp) ∧
      0 ≤ (computeScore (fun _ _ => (0 : ℚ)) ⟨some 100, none⟩ []).score ∧
      (computeScore (fun _ _ => (0 : ℚ)) ⟨some 100, none⟩ []).score ≤ 1) := by
  have hs : (computeScore (fun _ _ => (0 : ℚ)) ⟨some 100, none⟩ []).score = -163 / 50 := by
    norm_num [computeScore]
  intro h
  obtain ⟨_, h2, _⟩ := h
  rw [hs] at h2
  norm_num at h2

/-- Claim C1 (amended): the combined score is the weighted sum
`0.4·dep + 0.4·aq + 0.2·noise` of the components exactly as computed — the
source performs no clamping — and it lies in the unit interval whenever the
deprivation and air-quality components do (the noise component is the
constant 0.5). -/
theorem combinedScore_weighted_sum_inRange {α : Type} [LinearOrder α]
    (dist : ℚ × ℚ → Station → α) (lsoa : Lsoa) (stations : List (String × Station)) :
    (computeScore dist lsoa stations).score =
      0.4 * (computeScore dist lsoa stations).depComp +
      0.4 * (computeScore dist lsoa stations).aqComp +
      0.2 * (computeScore dist lsoa stations).noiseComp ∧
    (0 ≤ (computeScore dist lsoa stations).depComp →
      (computeScore dist lsoa stations).depComp ≤ 1 →
      0 ≤ (computeScore dist lsoa stations).aqComp →
      (computeScore dist lsoa stations).aqComp ≤ 1 →
      0 ≤ (computeScore dist lsoa stations).score ∧
        (computeScore dist lsoa stations).score ≤ 1) := by
  have heq : (computeScore dist lsoa stations).score =
      0.4 * (computeScore dist lsoa stations).depComp +
      0.4 * (computeScore dist lsoa stations).aqComp +
      0.2 * (computeScore dist lsoa stations).noiseComp := rfl
  have hn : (computeScore dist lsoa stations).noiseComp = 0.5 := rfl
  refine ⟨heq, fun h1 h2 h3 h4 => ⟨?_, ?_⟩⟩ <;> rw [heq, hn] <;> nlinarith

/-- Witness for C1's amended theorem at a region of decile 1 with no
stations. -/
theorem combinedScore_weighted_sum_inRange_witness :
    (computeScore (fun _ _ => (0 : ℚ)) ⟨some 1, none⟩ []).score =
      0.4 * (computeScore (fun _ _ => (0 : ℚ)) ⟨some 1, none⟩ []).depComp +
      0.4 * (computeScore (fun _ _ => (0 : ℚ)) ⟨some 1, none⟩ []).aqComp +
      0.2 * (computeScore (fun _ _ => (0 : ℚ)) ⟨some 1, none⟩ []).noiseComp ∧
    (0 ≤ (computeScore (fun _ _ => (0 : ℚ)) ⟨some 1, none⟩ []).score ∧
      (computeScore (fun _ _ => (0 : ℚ)) ⟨some 1, none⟩ []).score ≤ 1) :=
  ⟨(combinedScore_weighted_sum_inRange (fun _ _ => (0 : ℚ)) ⟨some 1, none⟩ []).1,
   (combinedScore_weighted_sum_inRange (fun _ _ => (0 : ℚ)) ⟨some 1, none⟩ []).2
     (by norm_num [computeScore]) (by norm_num [computeScore])
     (by norm_num [computeScore]) (by norm_num [computeScore])⟩

end Propmap
